import Mathlib

/-!
Verification of the Mercado Livre market-analysis script (src/app.py).

The development shallowly embeds the data-cleaning, pricing and reporting
logic of the script. Strings are modelled as `List Char` (ASCII-faithful:
Python case mapping and regex word classes are modelled on the ASCII range,
which is the only range the verified claims exercise). Python floats are
modelled with exact rational arithmetic: a parsed numeric string is kept as
its exact decimal value, except that magnitudes at or beyond the IEEE-754
double overflow boundary (2^1024 - 2^970) become infinities, as in CPython.
Python exceptions that can escape the modelled functions are represented
with `Except`.
-/

set_option maxRecDepth 4000

/- ===================== 1. Python string primitives ===================== -/

/-- Whitespace stripped by Python str.strip() (ASCII range). -/
def pyIsSpace (c : Char) : Bool :=
  c == ' ' || c == '\t' || c == '\n' || c == '\r' || c == '\x0b' || c == '\x0c'

/-- Python str.strip(): drop whitespace from both ends. -/
def pyStrip (l : List Char) : List Char :=
  ((l.dropWhile pyIsSpace).reverse.dropWhile pyIsSpace).reverse

/-- ASCII uppercase-to-lowercase table. -/
def lowerTable : List (Char × Char) :=
  [('A','a'), ('B','b'), ('C','c'), ('D','d'), ('E','e'), ('F','f'), ('G','g'),
   ('H','h'), ('I','i'), ('J','j'), ('K','k'), ('L','l'), ('M','m'), ('N','n'),
   ('O','o'), ('P','p'), ('Q','q'), ('R','r'), ('S','s'), ('T','t'), ('U','u'),
   ('V','v'), ('W','w'), ('X','x'), ('Y','y'), ('Z','z')]

/-- ASCII lowercase-to-uppercase table. -/
def upperTable : List (Char × Char) := lowerTable.map (fun p => (p.2, p.1))

def pyCharLower (c : Char) : Char :=
  match lowerTable.find? (fun p => p.1 == c) with
  | some p => p.2
  | none => c

def pyCharUpper (c : Char) : Char :=
  match upperTable.find? (fun p => p.1 == c) with
  | some p => p.2
  | none => c

/-- Python str.lower() (ASCII). -/
def pyLower (l : List Char) : List Char := l.map pyCharLower

/-- Python str.upper() (ASCII), at the String level. -/
def pyUpperS (s : String) : String := String.mk (s.toList.map pyCharUpper)

/-- Python str.replace("+", ""): removes every occurrence of "+". -/
def removePlus (l : List Char) : List Char := l.filter (fun c => !(c == '+'))

/-- Python str.replace(".", ""): removes every occurrence of ".". -/
def removeDots (l : List Char) : List Char := l.filter (fun c => !(c == '.'))

/-- Python str.replace(",", "."): a one-character replacement is a map. -/
def commaToDot (l : List Char) : List Char :=
  l.map (fun c => if c == ',' then '.' else c)

/-- Python ("mil" in texto): substring test. -/
def containsMil : List Char → Bool
  | c :: d :: e :: rest => (c == 'm' && d == 'i' && e == 'l') || containsMil (d :: e :: rest)
  | _ => false

/-- Python str.replace("mil", rep): replace every (leftmost-first,
non-overlapping) occurrence of "mil". -/
def replaceMil (rep : List Char) : List Char → List Char
  | [] => []
  | [c] => [c]
  | [c, d] => [c, d]
  | c :: d :: e :: rest =>
    if c == 'm' && d == 'i' && e == 'l' then rep ++ replaceMil rep rest
    else c :: replaceMil rep (d :: e :: rest)

/- ===================== 2. Numeric string parsing ===================== -/

/-- Value of an ASCII digit. -/
def dVal (c : Char) : ℕ := c.toNat - 48

/-- Result of scanning a leading run of digits: accumulated value, number of
digits seen, and the unconsumed remainder. -/
structure DigitsRes where
  val : ℕ
  cnt : ℕ
  rest : List Char
deriving DecidableEq, Repr

/-- Scan digits; when `us` is true a single underscore is allowed between two
digits (CPython numeric literals accept them, the pandas parser does not). -/
def takeDigitsAux (us : Bool) : List Char → ℕ → ℕ → DigitsRes
  | '_' :: c :: rest, v, k =>
    if us && c.isDigit then takeDigitsAux us rest (10 * v + dVal c) (k + 1)
    else ⟨v, k, '_' :: c :: rest⟩
  | c :: rest, v, k =>
    if c.isDigit then takeDigitsAux us rest (10 * v + dVal c) (k + 1)
    else ⟨v, k, c :: rest⟩
  | [], v, k => ⟨v, k, []⟩

/-- Scan a digit run that must begin with a digit. -/
def takeDigits (us : Bool) (l : List Char) : Option DigitsRes :=
  match l with
  | c :: _ => if c.isDigit then some (takeDigitsAux us l 0 0) else none
  | [] => none

/-- Sign reader: returns (isNegative, remainder). -/
def readSign : List Char → Bool × List Char
  | [] => (false, [])
  | c :: rest =>
    if c == '+' then (false, rest)
    else if c == '-' then (true, rest)
    else (false, c :: rest)

/-- The symbolic content of a finite parsed decimal: sign, the integer and
fraction digits as one natural number, the fraction digit count and the
scientific exponent. Its value is `±mant / 10^fk * 10^ex`. -/
structure FloatParts where
  neg : Bool
  mant : ℕ
  fk : ℕ
  ex : ℤ
deriving DecidableEq, Repr

def expFactor (e : ℤ) : ℚ :=
  if 0 ≤ e then (10 : ℚ) ^ e.toNat else ((10 : ℚ) ^ (-e).toNat)⁻¹

/-- Exact rational value of a parsed decimal. -/
def FloatParts.val (p : FloatParts) : ℚ :=
  (if p.neg then -(p.mant : ℚ) else (p.mant : ℚ)) / 10 ^ p.fk * expFactor p.ex

/-- A Python float as produced by numeric-string conversion. -/
inductive PyFloat where
  | fin (q : ℚ)
  | inf
  | ninf
  | nan
deriving DecidableEq, Repr

/-- 2^1024 - 2^970: the least magnitude that rounds to infinity in IEEE-754
binary64 (written as a literal so that kernel evaluation stays cheap). -/
def ovfBound : ℕ := 179769313486231580793728971405303415079934132710037826936173778980444968292764750946649017977587207096330286416692887910946555547851940402630657488671505820681908902000708383676273854845817711531764475730270069855571366959622842914819860834936475292719074168444365510704342711559699508093042880177904174497792

/-- Does the magnitude `mant * 10^(ex - fk)` reach the double overflow
boundary? Computed in ℕ to stay kernel-evaluable. -/
def FloatParts.overflows (p : FloatParts) : Bool :=
  if 0 ≤ p.ex - (p.fk : ℤ) then decide (ovfBound ≤ p.mant * 10 ^ (p.ex - (p.fk : ℤ)).toNat)
  else decide (ovfBound * 10 ^ ((p.fk : ℤ) - p.ex).toNat ≤ p.mant)

/-- Interpret parsed parts as a Python float (overflow becomes ±inf). -/
def FloatParts.toPyFloat (p : FloatParts) : PyFloat :=
  if p.overflows then (if p.neg then .ninf else .inf) else .fin p.val

/-- Mantissa part of the decimal grammar: `digits [. digits]`, `. digits`,
or `digits .`; returns (mantissa, fraction digit count, remainder). -/
def parseMantissa (us : Bool) (l : List Char) : Option (ℕ × ℕ × List Char) :=
  match l with
  | '.' :: r => (takeDigits us r).map (fun d => (d.val, d.cnt, d.rest))
  | _ =>
    match takeDigits us l with
    | some d =>
      match d.rest with
      | '.' :: r2 =>
        match takeDigits us r2 with
        | some d2 => some (d.val * 10 ^ d2.cnt + d2.val, d2.cnt, d2.rest)
        | none => some (d.val, 0, r2)
      | _ => some (d.val, 0, d.rest)
    | none => none

/-- Exponent part: `[+-] digits`, consuming the whole remainder. -/
def parseExp (us : Bool) (l : List Char) : Option ℤ :=
  match takeDigits us (readSign l).2 with
  | some d =>
    if d.rest = [] then some (if (readSign l).1 then -(d.val : ℤ) else (d.val : ℤ)) else none
  | none => none

/-- Decimal after the sign: mantissa plus optional `e`/`E` exponent. -/
def parseDecimal (us : Bool) (neg : Bool) (l : List Char) : Option FloatParts :=
  match parseMantissa us l with
  | some (m, k, rest) =>
    match rest with
    | [] => some ⟨neg, m, k, 0⟩
    | e :: r =>
      if e == 'e' || e == 'E' then (parseExp us r).map (fun ex => ⟨neg, m, k, ex⟩)
      else none
  | none => none

/-- The common float-from-string grammar: optional surrounding whitespace,
optional sign, then `inf`/`infinity`/`nan` (case-insensitive) or a decimal. -/
def pyFloatOfChars (us : Bool) (l : List Char) : Option PyFloat :=
  if pyLower (readSign (pyStrip l)).2 = "inf".toList ||
      pyLower (readSign (pyStrip l)).2 = "infinity".toList then
    some (if (readSign (pyStrip l)).1 then .ninf else .inf)
  else if pyLower (readSign (pyStrip l)).2 = "nan".toList then some .nan
  else (parseDecimal us (readSign (pyStrip l)).1 (readSign (pyStrip l)).2).map FloatParts.toPyFloat

/-- CPython float(str): underscores between digits are accepted. -/
def pyFloat (l : List Char) : Option PyFloat := pyFloatOfChars true l

/-- The pandas to_numeric string parser (no underscores). -/
def pandasNumeric (l : List Char) : Option PyFloat := pyFloatOfChars false l

/-- CPython int(str): optional surrounding whitespace, optional sign, digits
(with underscores between digits). -/
def pyIntOfChars (l : List Char) : Option ℤ :=
  match takeDigits true (readSign (pyStrip l)).2 with
  | some d =>
    if d.rest = [] then some (if (readSign (pyStrip l)).1 then -(d.val : ℤ) else (d.val : ℤ))
    else none
  | none => none

/-- Python int() applied to a float value: truncation toward zero. -/
def pyTruncQ (q : ℚ) : ℤ := if 0 ≤ q then ⌊q⌋ else ⌈q⌉

/- ===================== 3. clean_sold_data ===================== -/

/-- The only Python exception that can escape the modelled functions:
int(±inf) raises OverflowError, which `clean_sold_data` does not catch. -/
inductive PyErr where
  | overflowError
deriving DecidableEq, Repr

deriving instance DecidableEq for Except

/-- texto.lower().replace("+", "").strip() — the preprocessing applied by
`clean_sold_data` before branch selection. -/
def soldProcessed (s : String) : List Char := pyStrip (removePlus (pyLower s.toList))

/-- app.py, clean_sold_data: converts the raw "Vendidos" string to the
integer used for internal sorting. `none` stands for a missing (NaN) or
non-string input. -/
def clean_sold_data : Option String → Except PyErr ℤ
  | none => .ok 0
  | some texto =>
    if pyUpperS texto = "N/A" || (pyStrip texto.toList).isEmpty then .ok 0
    else
      if containsMil (soldProcessed texto) then
        match pyFloat (commaToDot (replaceMil [] (soldProcessed texto))) with
        | some (.fin q) => .ok (pyTruncQ (q * 1000))
        | some .inf => .error .overflowError
        | some .ninf => .error .overflowError
        | some .nan => .ok 0
        | none => .ok 0
      else
        match pyIntOfChars (soldProcessed texto) with
        | some n => .ok n
        | none => .ok 0

/- ===================== 4. format_sold_data_for_display ===================== -/

/-- Insert "." every three digits, walking a least-significant-first digit
list (the model of Python format(n, ",") with "," replaced by "."). -/
def thousandsSep : List Char → List Char
  | a :: b :: c :: d :: rest => a :: b :: c :: '.' :: thousandsSep (d :: rest)
  | l => l

/-- f"{n:,}".replace(",", "."): decimal rendering with "." every three
digits, sign in front. -/
def intThousands (n : ℤ) : String :=
  String.mk ((if n < 0 then ['-'] else []) ++ (thousandsSep (Nat.toDigits 10 n.natAbs).reverse).reverse)

/-- app.py, format_sold_data_for_display: display form of the raw
"Vendidos" string. -/
def format_sold_data_for_display : Option String → Except PyErr String
  | none => .ok "N/A"
  | some texto =>
    if (pyStrip texto.toList).isEmpty then .ok "N/A"
    else
      if pyUpperS (String.mk (pyStrip texto.toList)) = "N/A" then .ok "N/A"
      else
        match clean_sold_data (some (String.mk (pyStrip texto.toList))) with
        | .error e => .error e
        | .ok v =>
          if v = 0 then .ok "N/A"
          else
            match pyIntOfChars (pyStrip (replaceMil ['0','0','0'] (removePlus (pyStrip texto.toList)))) with
            | some n => .ok (intThousands n)
            | none => .ok (String.mk (pyStrip (replaceMil ['0','0','0'] (removePlus (pyStrip texto.toList)))))

/- ===================== 5. calculate_profit ===================== -/

/-- Per-marketplace result of app.py, calculate_profit. -/
structure MarketResult where
  custoTotal : ℚ
  comissao : ℚ
  lucroBruto : ℚ
  margemPct : ℚ
deriving DecidableEq, Repr

structure ProfitResults where
  mercadoLivre : MarketResult
  shopee : MarketResult
deriving DecidableEq, Repr

/-- app.py, calculate_profit. Constants: 4% tax + 3% marketing on the sale
price, R$ 0.35 packaging + R$ 1.50 operations per order, 25% Mercado Livre
commission (plus a zero fixed cost), 18% Shopee commission. Division by a
zero sale price cannot occur in the app (the UI enforces pv ≥ 0.01); the
model uses total division on ℚ. -/
def calculate_profit (pv cp : ℚ) : ProfitResults :=
  if pv ≤ cp then
    ⟨⟨0, 0, 0, 0⟩, ⟨0, 0, 0, 0⟩⟩
  else
    let costFixoVenda : ℚ := 35/100 + 150/100
    let costPercentualBase : ℚ := 4/100 + 3/100
    let mlComissao := pv * (25/100) + 0
    let mlCustoTotal := cp + pv * costPercentualBase + mlComissao + costFixoVenda
    let mlLucroBruto := pv - mlCustoTotal
    let shopeeComissao := pv * (18/100)
    let shopeeCustoTotal := cp + pv * costPercentualBase + shopeeComissao + costFixoVenda
    let shopeeLucroBruto := pv - shopeeCustoTotal
    ⟨⟨mlCustoTotal, mlComissao, mlLucroBruto, mlLucroBruto / pv * 100⟩,
     ⟨shopeeCustoTotal, shopeeComissao, shopeeLucroBruto, shopeeLucroBruto / pv * 100⟩⟩

/- ===================== 6. Price cleaning and the processed table ===================== -/

/-- app.py, main, step 1: "Preço Limpo". The raw price string has its "."
thousands separators removed, "," turned into a decimal point, is stripped,
and is then coerced with pd.to_numeric(errors="coerce"): a parse failure
becomes NaN. -/
def precoLimpo (raw : String) : PyFloat :=
  match pandasNumeric (pyStrip (commaToDot (removeDots raw.toList))) with
  | some v => v
  | none => .nan

/-- One raw scraped listing record (the fields the verified logic reads;
presentation-only fields such as the link, image, id and page are omitted). -/
structure RawRow where
  nome : String
  preco : String
  vendidos : String
deriving DecidableEq, Repr

/-- One processed listing row: the raw fields plus the derived columns
"Preço Limpo", "Vendidos_Numérico" and the display form of "Vendidos". -/
structure ProcRow where
  nome : String
  preco : String
  precoLimpo : PyFloat
  vendNum : ℤ
  vendDisp : String
deriving DecidableEq, Repr

/-- app.py, main, steps 1-3: derive the computed columns for one record;
an uncaught exception from the sold-count functions aborts preprocessing. -/
def processRow (r : RawRow) : Except PyErr ProcRow := do
  let vn ← clean_sold_data (some r.vendidos)
  let vd ← format_sold_data_for_display (some r.vendidos)
  pure ⟨r.nome, r.preco, precoLimpo r.preco, vn, vd⟩

def processAll : List RawRow → Except PyErr (List ProcRow)
  | [] => .ok []
  | r :: rest => do
    let p ← processRow r
    let ps ← processAll rest
    pure (p :: ps)

/- ===================== 7. Sorting ===================== -/

/-- Is the normalized price the missing marker? -/
def pfIsNan : PyFloat → Bool
  | .nan => true
  | _ => false

/-- Comparison used on non-NaN normalized prices (-inf < finite < inf). -/
def pfLe : PyFloat → PyFloat → Bool
  | .ninf, _ => true
  | _, .ninf => false
  | .fin a, .fin b => decide (a ≤ b)
  | _, .inf => true
  | .inf, _ => false
  | .nan, _ => true
  | _, .nan => false

def insertSorted (le : α → α → Bool) (x : α) : List α → List α
  | [] => [x]
  | y :: ys => if le x y then x :: y :: ys else y :: insertSorted le x ys

/-- Comparison sort used as the model of the pandas order-by-key sort (the
claims verified below do not depend on the order of tied keys). -/
def insertionSort (le : α → α → Bool) : List α → List α
  | [] => []
  | x :: xs => insertSorted le x (insertionSort le xs)

/-- app.py, main: sort_values(by="Preço Limpo", na_position="last",
ascending=True) — non-missing keys in ascending order, all missing-price
records appended after them (pandas nargsort semantics). -/
def sortMenorPreco (l : List ProcRow) : List ProcRow :=
  insertionSort (fun a b => pfLe a.precoLimpo b.precoLimpo)
      (l.filter (fun r => !(pfIsNan r.precoLimpo)))
    ++ l.filter (fun r => pfIsNan r.precoLimpo)

/-- Key order for sort_values(by=["Vendidos_Numérico", "Preço Limpo"],
ascending=[False, True]): sold count descending, then price ascending with
missing prices last. -/
def vendKeyLe (a b : ProcRow) : Bool :=
  if a.vendNum = b.vendNum then
    match pfIsNan a.precoLimpo, pfIsNan b.precoLimpo with
    | true, true => true
    | true, false => false
    | false, true => true
    | false, false => pfLe a.precoLimpo b.precoLimpo
  else decide (b.vendNum < a.vendNum)

/-- app.py, main: the "Mais Vendido" ordering. -/
def sortMaisVendido (l : List ProcRow) : List ProcRow := insertionSort vendKeyLe l

/-- app.py, analyze_keywords_8020: sort_values(by="Vendidos_Numérico",
ascending=False). -/
def sortVendDesc (l : List ProcRow) : List ProcRow :=
  insertionSort (fun a b => decide (b.vendNum ≤ a.vendNum)) l

/- ===================== 8. Keyword analysis ===================== -/

/-- Model of the regex word class \w over the modelled alphabet: ASCII
letters, digits and underscore; non-ASCII codepoints are conservatively
treated as word constituents (they can only remove candidate tokens, and
every token kept is ASCII [a-z]). -/
def isWordChar (c : Char) : Bool :=
  c.isAlpha || c.isDigit || c == '_' || decide (128 ≤ c.toNat)

def isLatinLower (c : Char) : Bool := 'a' ≤ c && c ≤ 'z'

/-- Maximal word-character runs of a string (`acc` carries the current run
reversed). -/
def wordRunsAux : List Char → List Char → List (List Char)
  | [], acc => if acc.isEmpty then [] else [acc.reverse]
  | c :: rest, acc =>
    if isWordChar c then wordRunsAux rest (c :: acc)
    else if acc.isEmpty then wordRunsAux rest [] else acc.reverse :: wordRunsAux rest []

def wordRuns (l : List Char) : List (List Char) := wordRunsAux l []

/-- The stop-word set of app.py, analyze_keywords_8020. -/
def stopwords : List String :=
  ["de", "a", "o", "que", "e", "é", "do", "da", "em", "um", "uma", "para", "com",
   "no", "na", "por", "mais", "os", "as", "dos", "das", "tem", "são", "ao", "à",
   "se", "ser", "ou", "quando", "muito", "meu", "minha", "seu", "sua", "esse",
   "essa", "este", "esta", "para", "mas", "como", "modelo", "slim", "kit",
   "calças", "envio", "imediato", "par"]

/-- re.findall(r"\b[a-z]{3,}\b", title.lower()) followed by the stop-word
filter: a match of that pattern is exactly a maximal word run consisting
solely of [a-z] with length at least 3. -/
def titleWords (title : String) : List String :=
  (((wordRuns (pyLower title.toList)).filter
      (fun w => decide (3 ≤ w.length) && w.all isLatinLower)).map String.mk).filter
    (fun w => !(stopwords.contains w))

/-- Number of occurrences of `a` in `l`. -/
def countOcc [DecidableEq α] (a : α) (l : List α) : ℕ := (l.filter (fun x => x == a)).length

/-- First-occurrence-ordered deduplication (Counter insertion order). -/
def dedupFirst [DecidableEq α] : List α → List α
  | [] => []
  | a :: rest => a :: (dedupFirst rest).filter (fun x => !(x == a))

/-- The (word, count) items of Counter(ws) in insertion order. -/
def counterItems (ws : List String) : List (String × ℕ) :=
  (dedupFirst ws).map (fun w => (w, countOcc w ws))

/-- Counter.most_common(n): stable sort by count descending, first n. -/
def mostCommon (n : ℕ) (ws : List String) : List (String × ℕ) :=
  (insertionSort (fun a b => !(decide (a.2 < b.2))) (counterItems ws)).take n

/-- app.py, analyze_keywords_8020: select the top max(10, int(len*0.20))
records by sold count descending (int(len(df)*0.20) equals len/5 exactly:
the truncated double product never crosses an integer boundary for any
attainable length), then count the non-stop-word title tokens and keep the
ten most frequent. Returns (word_counts, df_top_vendas). -/
def analyze_keywords_8020 (df : List ProcRow) : List (String × ℕ) × List ProcRow :=
  let top20Count := max 10 (df.length / 5)
  let dfTopVendas := (sortVendDesc df).take top20Count
  let allWords := (dfTopVendas.map (fun r => titleWords r.nome)).flatten
  (mostCommon 10 allWords, dfTopVendas)

/- ===================== 9. Cost-price analysis ===================== -/

/-- IEEE addition on the modelled floats (no finite rounding). -/
def pfAdd : PyFloat → PyFloat → PyFloat
  | .nan, _ => .nan
  | _, .nan => .nan
  | .inf, .ninf => .nan
  | .ninf, .inf => .nan
  | .inf, _ => .inf
  | _, .inf => .inf
  | .ninf, _ => .ninf
  | _, .ninf => .ninf
  | .fin a, .fin b => .fin (a + b)

/-- Division of a float by a positive rational (the uses below divide by a
record count and by 1 + markup, both positive). -/
def pfDivPos : PyFloat → ℚ → PyFloat
  | .fin a, d => .fin (a / d)
  | .inf, _ => .inf
  | .ninf, _ => .ninf
  | .nan, _ => .nan

def pfSum (l : List PyFloat) : PyFloat := l.foldr pfAdd (.fin 0)

/-- app.py, analyze_cost_price: drop the rows with a missing "Preço Limpo";
if none remain return None, otherwise the mean selling price and the
maximum purchase cost for each target markup. -/
def analyze_cost_price (dfTopVendas : List ProcRow) (markupMin markupExc : ℚ) :
    Option (PyFloat × PyFloat × PyFloat) :=
  let dfValid := dfTopVendas.filter (fun r => !(pfIsNan r.precoLimpo))
  if dfValid.isEmpty then none
  else
    let avg := pfDivPos (pfSum (dfValid.map (fun r => r.precoLimpo))) dfValid.length
    some (avg, pfDivPos avg (1 + markupMin), pfDivPos avg (1 + markupExc))

/- ===================== 10. The post-fetch pipeline of main ===================== -/

inductive SortOption where
  | maisVendido
  | maisRelevante
  | menorPreco
deriving DecidableEq, Repr

/-- Outcome of main after the scrape returns: the empty-result warning, the
preprocessing error banner, or the full report (sorted table shown and
exported, keyword list, top subset and cost analysis). -/
inductive MainOutcome where
  | noResults
  | preprocessError
  | report (table : List ProcRow) (keywords : List (String × ℕ))
      (topSubset : List ProcRow) (cost : Option (PyFloat × PyFloat × PyFloat))
      (csvRows : List ProcRow)
deriving DecidableEq, Repr

/-- app.py, main, after scrape_mercado_livre returns: an empty DataFrame
produces only the "Nenhum resultado encontrado" warning; otherwise the
columns are derived (any escaped exception is caught and reported as an
error), the table is sorted per the chosen mode, and the keyword, cost and
export artefacts are produced from the first numPages*48 sorted rows. -/
def mainAfterFetch (sortOpt : SortOption) (numPages : ℕ) (raw : List RawRow) : MainOutcome :=
  if raw.isEmpty then .noResults
  else
    match processAll raw with
    | .error _ => .preprocessError
    | .ok rows =>
      let dfSorted :=
        match sortOpt with
        | .menorPreco => sortMenorPreco rows
        | .maisVendido => sortMaisVendido rows
        | .maisRelevante => rows
      let analysis := analyze_keywords_8020 rows
      .report (dfSorted.take (numPages * 48)) analysis.1 analysis.2
        (analyze_cost_price analysis.2 (80/100) (100/100))
        (dfSorted.take (numPages * 48))

/- ===================== 11. Helper lemmas ===================== -/

section Helpers

variable {α : Type _}

theorem mem_of_mem_pyStrip {c : Char} {l : List Char} (h : c ∈ pyStrip l) : c ∈ l := by
  unfold pyStrip at h
  rw [List.mem_reverse] at h
  have h2 := (List.dropWhile_sublist pyIsSpace).mem h
  rw [List.mem_reverse] at h2
  exact (List.dropWhile_sublist pyIsSpace).mem h2

theorem pyCharLower_eq_self {c : Char}
    (h : ∀ pr ∈ lowerTable, ¬ pr.1 = c) : pyCharLower c = c := by
  unfold pyCharLower
  rw [List.find?_eq_none.mpr (fun pr hpr => by simp [h pr hpr])]

theorem pyCharLower_minus {c : Char} (h : pyCharLower c = '-') : c = '-' := by
  unfold pyCharLower at h
  cases hf : lowerTable.find? (fun pr => pr.1 == c) with
  | none => rw [hf] at h; exact h
  | some pr =>
    rw [hf] at h
    have hmem := List.mem_of_find?_eq_some hf
    have : ∀ q ∈ lowerTable, ¬ q.2 = '-' := by decide
    exact absurd h (this pr hmem)

theorem pyCharUpper_slash {c : Char} (h : pyCharUpper c = '/') : c = '/' := by
  unfold pyCharUpper at h
  cases hf : upperTable.find? (fun pr => pr.1 == c) with
  | none => rw [hf] at h; exact h
  | some pr =>
    rw [hf] at h
    have hmem := List.mem_of_find?_eq_some hf
    have heq := List.find?_some hf
    have : ∀ q ∈ upperTable, ¬ q.2 = '/' := by decide
    exact absurd h (this pr hmem)

theorem pyCharUpper_N {c : Char} (h : pyCharUpper c = 'N') : c = 'N' ∨ c = 'n' := by
  unfold pyCharUpper at h
  cases hf : upperTable.find? (fun pr => pr.1 == c) with
  | none => rw [hf] at h; exact Or.inl h
  | some pr =>
    rw [hf] at h
    have hmem := List.mem_of_find?_eq_some hf
    have heq : pr.1 = c := by have := List.find?_some hf; simpa using this
    have htab : ∀ q ∈ upperTable, q.2 = 'N' → q = ('n', 'N') := by decide
    have hpr := htab pr hmem h
    right
    rw [← heq, hpr]

theorem pyCharUpper_A {c : Char} (h : pyCharUpper c = 'A') : c = 'A' ∨ c = 'a' := by
  unfold pyCharUpper at h
  cases hf : upperTable.find? (fun pr => pr.1 == c) with
  | none => rw [hf] at h; exact Or.inl h
  | some pr =>
    rw [hf] at h
    have hmem := List.mem_of_find?_eq_some hf
    have heq : pr.1 = c := by have := List.find?_some hf; simpa using this
    have htab : ∀ q ∈ upperTable, q.2 = 'A' → q = ('a', 'A') := by decide
    have hpr := htab pr hmem h
    right
    rw [← heq, hpr]

theorem minus_mem_of_mem_pyLower {l : List Char} (h : '-' ∈ pyLower l) : '-' ∈ l := by
  unfold pyLower at h
  obtain ⟨d, hd, hdeq⟩ := List.mem_map.mp h
  rwa [pyCharLower_minus hdeq] at hd

theorem mem_of_mem_removePlus {c : Char} {l : List Char} (h : c ∈ removePlus l) : c ∈ l :=
  (List.mem_filter.mp h).1

theorem mem_of_mem_removeDots {c : Char} {l : List Char} (h : c ∈ removeDots l) : c ∈ l :=
  (List.mem_filter.mp h).1

theorem minus_mem_of_mem_commaToDot {l : List Char} (h : '-' ∈ commaToDot l) : '-' ∈ l := by
  unfold commaToDot at h
  obtain ⟨d, hd, hdeq⟩ := List.mem_map.mp h
  by_cases hc : d = ','
  · simp [hc] at hdeq
  · have : (d == ',') = false := by simp [hc]
    rw [this] at hdeq
    simp at hdeq
    rwa [hdeq] at hd

theorem mem_replaceMil {c : Char} (rep : List Char) (l : List Char)
    (h : c ∈ replaceMil rep l) : c ∈ rep ∨ c ∈ l := by
  induction l using replaceMil.induct rep with
  | case1 => simp [replaceMil] at h
  | case2 d => simp [replaceMil] at h; simp [h]
  | case3 d e => simp [replaceMil] at h; rcases h with h | h <;> simp [h]
  | case4 d e f rest hmil ih =>
    rw [replaceMil, if_pos hmil] at h
    rcases List.mem_append.mp h with h | h
    · exact Or.inl h
    · rcases ih h with h | h
      · exact Or.inl h
      · exact Or.inr (by simp [h])
  | case5 d e f rest hmil ih =>
    rw [replaceMil, if_neg hmil] at h
    rcases List.mem_cons.mp h with h | h
    · simp [h]
    · rcases ih h with h | h
      · exact Or.inl h
      · exact Or.inr (by simp at h ⊢; tauto)

theorem containsMil_cons3 (x y z : Char) (rest : List Char) :
    containsMil (x :: y :: z :: rest) =
      ((x == 'm' && y == 'i' && z == 'l') || containsMil (y :: z :: rest)) := rfl

theorem replaceMil_cons3 (rep : List Char) (x y z : Char) (rest : List Char) :
    replaceMil rep (x :: y :: z :: rest) =
      if x == 'm' && y == 'i' && z == 'l' then rep ++ replaceMil rep rest
      else x :: replaceMil rep (y :: z :: rest) := rfl

theorem containsMil_append_mil (p s : List Char) :
    containsMil (p ++ 'm' :: 'i' :: 'l' :: s) = true := by
  induction p with
  | nil => rw [List.nil_append, containsMil_cons3]; simp
  | cons c p ih =>
    match p with
    | [] =>
      show containsMil (c :: 'm' :: 'i' :: 'l' :: s) = true
      rw [containsMil_cons3, containsMil_cons3]
      simp
    | [d] =>
      show containsMil (c :: d :: 'm' :: 'i' :: 'l' :: s) = true
      rw [containsMil_cons3]
      have h2 : containsMil (d :: 'm' :: 'i' :: 'l' :: s) = true := by
        rw [containsMil_cons3, containsMil_cons3]; simp
      rw [h2]
      simp
    | d :: e :: p' =>
      show containsMil (c :: d :: e :: (p' ++ 'm' :: 'i' :: 'l' :: s)) = true
      rw [containsMil_cons3]
      have := ih
      simp only [List.cons_append] at this
      rw [this]
      simp

theorem replaceMil_append_mil (p : List Char) (h : containsMil p = false) :
    replaceMil [] (p ++ ['m', 'i', 'l']) = p := by
  induction p with
  | nil => decide
  | cons c p ih =>
    match p with
    | [] =>
      show replaceMil [] (c :: 'm' :: 'i' :: 'l' :: []) = [c]
      rw [replaceMil_cons3]
      rw [show (c == 'm' && 'm' == 'i' && 'i' == 'l') = false by
        simp [show ('m' == 'i') = false from rfl]]
      simp [show replaceMil [] ('m' :: 'i' :: 'l' :: []) = [] from by decide]
    | [d] =>
      show replaceMil [] (c :: d :: 'm' :: 'i' :: 'l' :: []) = [c, d]
      rw [replaceMil_cons3]
      rw [show (c == 'm' && d == 'i' && 'm' == 'l') = false by
        simp [show ('m' == 'l') = false from rfl]]
      rw [replaceMil_cons3]
      rw [show (d == 'm' && 'm' == 'i' && 'i' == 'l') = false by
        simp [show ('m' == 'i') = false from rfl]]
      simp [show replaceMil [] ('m' :: 'i' :: 'l' :: []) = [] from by decide]
    | d :: e :: p' =>
      rw [containsMil_cons3] at h
      have hparts := Bool.or_eq_false_iff.mp h
      show replaceMil [] (c :: d :: e :: (p' ++ ['m', 'i', 'l'])) = c :: d :: e :: p'
      rw [replaceMil_cons3, if_neg (by rw [hparts.1]; simp)]
      have := ih hparts.2
      simp only [List.cons_append] at this ⊢
      rw [this]

end Helpers

section Helpers2

theorem readSign_neg_mem {l : List Char} (h : (readSign l).1 = true) : '-' ∈ l := by
  cases l with
  | nil => simp [readSign] at h
  | cons c rest =>
    simp only [readSign] at h
    split at h
    · simp at h
    · split at h
      · rename_i h2
        have hc : c = '-' := by simpa using h2
        rw [hc]; exact List.mem_cons_self _ _
      · simp at h

theorem parseDecimal_neg {us neg : Bool} {l : List Char} {parts : FloatParts}
    (h : parseDecimal us neg l = some parts) : parts.neg = neg := by
  unfold parseDecimal at h
  rcases hm : parseMantissa us l with _ | ⟨⟨m, k, rest⟩⟩ <;> rw [hm] at h
  · simp at h
  · rcases rest with _ | ⟨e, r⟩
    · simp at h; rw [← h]
    · simp only at h
      by_cases he : (e == 'e' || e == 'E') = true
      · rw [if_pos he] at h
        rcases hx : parseExp us r with _ | ex <;> rw [hx] at h
        · simp at h
        · simp at h; rw [← h]
      · rw [if_neg he] at h; simp at h

theorem FloatParts.toPyFloat_fin {p : FloatParts} {q : ℚ} (h : p.toPyFloat = .fin q) :
    q = p.val := by
  unfold FloatParts.toPyFloat at h
  by_cases ho : p.overflows = true
  · rw [if_pos ho] at h; cases hn : p.neg <;> rw [hn] at h <;> simp at h
  · rw [if_neg ho] at h; simpa using h.symm

theorem FloatParts.toPyFloat_ninf {p : FloatParts} (h : p.toPyFloat = .ninf) :
    p.neg = true := by
  unfold FloatParts.toPyFloat at h
  by_cases ho : p.overflows = true
  · rw [if_pos ho] at h
    cases hn : p.neg
    · rw [hn] at h; simp at h
    · rfl
  · rw [if_neg ho] at h; simp at h

theorem expFactor_nonneg (e : ℤ) : 0 ≤ expFactor e := by
  unfold expFactor; split <;> positivity

theorem FloatParts.val_nonneg {p : FloatParts} (h : p.neg = false) : 0 ≤ p.val := by
  unfold FloatParts.val
  rw [h]
  simp only [if_false, Bool.false_eq_true]
  have h1 : (0 : ℚ) ≤ (p.mant : ℚ) / 10 ^ p.fk := by positivity
  exact mul_nonneg h1 (expFactor_nonneg p.ex)

theorem readSign_fst_false {l : List Char} (hm : '-' ∉ l) : (readSign (pyStrip l)).1 = false := by
  cases hb : (readSign (pyStrip l)).1
  · rfl
  · exact absurd (mem_of_mem_pyStrip (readSign_neg_mem hb)) hm

theorem pyFloatOfChars_fin_nonneg {us : Bool} {l : List Char} {q : ℚ}
    (hm : '-' ∉ l) (h : pyFloatOfChars us l = some (.fin q)) : 0 ≤ q := by
  have hneg := readSign_fst_false hm
  unfold pyFloatOfChars at h
  rw [hneg] at h
  simp only [Bool.false_eq_true, if_false] at h
  split at h
  · exact absurd h (by simp)
  · split at h
    · exact absurd h (by simp)
    · rcases hp : parseDecimal us false (readSign (pyStrip l)).2 with _ | parts <;> rw [hp] at h
      · simp at h
      · simp only [Option.map_some'] at h
        have hfin := FloatParts.toPyFloat_fin (Option.some.injEq _ _ ▸ h : parts.toPyFloat = .fin q)
        rw [hfin]
        exact FloatParts.val_nonneg (parseDecimal_neg hp)

theorem pyFloatOfChars_ne_ninf {us : Bool} {l : List Char}
    (hm : '-' ∉ l) : pyFloatOfChars us l ≠ some .ninf := by
  have hneg := readSign_fst_false hm
  unfold pyFloatOfChars
  rw [hneg]
  simp only [Bool.false_eq_true, if_false]
  split
  · simp
  · split
    · simp
    · intro h
      rcases hp : parseDecimal us false (readSign (pyStrip l)).2 with _ | parts <;> rw [hp] at h
      · simp at h
      · simp only [Option.map_some'] at h
        have := FloatParts.toPyFloat_ninf (Option.some.injEq _ _ ▸ h : parts.toPyFloat = .ninf)
        rw [parseDecimal_neg hp] at this
        exact Bool.false_ne_true this

theorem pyIntOfChars_nonneg {l : List Char} {n : ℤ}
    (hm : '-' ∉ l) (h : pyIntOfChars l = some n) : 0 ≤ n := by
  have hneg := readSign_fst_false hm
  unfold pyIntOfChars at h
  rw [hneg] at h
  rcases hd : takeDigits true (readSign (pyStrip l)).2 with _ | d <;> rw [hd] at h
  · simp at h
  · by_cases hrest : d.rest = []
    · simp only [hrest, if_true, Bool.false_eq_true, if_false] at h
      simp at h
      omega
    · simp [hrest] at h

theorem pyStrip_eq_nil_of_all {l : List Char} (h : ∀ c ∈ l, pyIsSpace c = true) :
    pyStrip l = [] := by
  unfold pyStrip
  rw [List.dropWhile_eq_nil_iff.mpr (fun x hx => h x hx)]
  simp

theorem all_space_of_pyStrip_eq_nil {l : List Char} (h : pyStrip l = []) :
    ∀ c ∈ l, pyIsSpace c = true := by
  unfold pyStrip at h
  have h1 : (l.dropWhile pyIsSpace).reverse.dropWhile pyIsSpace = [] := by
    have := congrArg List.reverse h
    simpa using this
  have h2 : ∀ c ∈ (l.dropWhile pyIsSpace).reverse, pyIsSpace c = true :=
    List.dropWhile_eq_nil_iff.mp h1
  intro c hc
  have hsplit : l.takeWhile pyIsSpace ++ l.dropWhile pyIsSpace = l :=
    List.takeWhile_append_dropWhile pyIsSpace l
  rw [← hsplit] at hc
  rcases List.mem_append.mp hc with hmem | hmem
  · exact List.mem_takeWhile_imp hmem
  · exact h2 c (List.mem_reverse.mpr hmem)

theorem space_cases {c : Char} (h : pyIsSpace c = true) :
    c = ' ' ∨ c = '\t' ∨ c = '\n' ∨ c = '\r' ∨ c = '\x0b' ∨ c = '\x0c' := by
  unfold pyIsSpace at h
  simp only [Bool.or_eq_true, beq_iff_eq] at h
  tauto

theorem space_not_plus {c : Char} (h : pyIsSpace c = true) : (c == '+') = false := by
  rcases space_cases h with h | h | h | h | h | h <;> subst h <;> rfl

theorem space_lower_self {c : Char} (h : pyIsSpace c = true) : pyCharLower c = c := by
  apply pyCharLower_eq_self
  intro pr hpr hpc
  have hsp : ∀ q ∈ lowerTable, pyIsSpace q.1 = false := by decide
  have h2 := hsp pr hpr
  rw [hpc, h] at h2
  exact Bool.noConfusion h2

theorem soldProcessed_of_blank {s : String} (h : (pyStrip s.toList).isEmpty = true) :
    soldProcessed s = [] := by
  have hall : ∀ c ∈ s.toList, pyIsSpace c = true :=
    all_space_of_pyStrip_eq_nil (List.isEmpty_iff.mp h)
  have hlow : pyLower s.toList = s.toList := by
    unfold pyLower
    calc s.toList.map pyCharLower = s.toList.map id :=
          List.map_congr_left (fun a ha => space_lower_self (hall a ha))
      _ = s.toList := List.map_id s.toList
  have hplus : removePlus s.toList = s.toList := by
    unfold removePlus
    exact List.filter_eq_self.mpr (fun a ha => by rw [space_not_plus (hall a ha)]; rfl)
  unfold soldProcessed
  rw [hlow, hplus]
  exact pyStrip_eq_nil_of_all hall

theorem soldProcessed_of_NA {s : String} (h : pyUpperS s = "N/A") :
    soldProcessed s = ['n', '/', 'a'] := by
  have hl : s.toList.map pyCharUpper = ['N', '/', 'A'] := congrArg String.data h
  have hlen : s.toList.length = 3 := by
    have := congrArg List.length hl
    simpa using this
  rcases hs : s.toList with _ | ⟨x, _ | ⟨y, _ | ⟨z, _ | ⟨w, rest⟩⟩⟩⟩ <;>
    rw [hs] at hlen <;> simp at hlen
  rw [hs] at hl
  simp only [List.map_cons, List.map_nil, List.cons.injEq, and_true] at hl
  obtain ⟨hx, hy, hz⟩ := hl
  have hy2 := pyCharUpper_slash hy
  unfold soldProcessed
  rw [hs, hy2]
  rcases pyCharUpper_N hx with hx2 | hx2 <;> rcases pyCharUpper_A hz with hz2 | hz2 <;>
    rw [hx2, hz2] <;> decide

end Helpers2

section Helpers3

variable {α : Type _}

theorem mem_insertSorted {le : α → α → Bool} {x a : α} {l : List α} :
    a ∈ insertSorted le x l ↔ a = x ∨ a ∈ l := by
  induction l with
  | nil => simp [insertSorted]
  | cons y ys ih =>
    unfold insertSorted
    split
    · simp
    · simp only [List.mem_cons, ih]
      tauto

theorem mem_insertionSort {le : α → α → Bool} {a : α} {l : List α} :
    a ∈ insertionSort le l ↔ a ∈ l := by
  induction l with
  | nil => simp [insertionSort]
  | cons x xs ih =>
    unfold insertionSort
    rw [mem_insertSorted]
    simp [ih]

theorem mem_dedupFirst [DecidableEq α] {a : α} {l : List α} (h : a ∈ dedupFirst l) : a ∈ l := by
  induction l with
  | nil => simp [dedupFirst] at h
  | cons x xs ih =>
    unfold dedupFirst at h
    rcases List.mem_cons.mp h with h | h
    · simp [h]
    · exact List.mem_cons_of_mem _ (ih (List.mem_filter.mp h).1)

theorem mostCommon_fst_mem {n : ℕ} {ws : List String} {p : String × ℕ}
    (h : p ∈ mostCommon n ws) : p.1 ∈ ws := by
  unfold mostCommon at h
  have h2 := mem_insertionSort.mp (List.mem_of_mem_take h)
  unfold counterItems at h2
  obtain ⟨w, hw, hweq⟩ := List.mem_map.mp h2
  have : p.1 = w := by rw [← hweq]
  rw [this]
  exact mem_dedupFirst hw

theorem titleWords_spec {w : String} {title : String} (h : w ∈ titleWords title) :
    3 ≤ w.length ∧ (∀ c ∈ w.toList, 'a' ≤ c ∧ c ≤ 'z') ∧ ¬ w ∈ stopwords := by
  unfold titleWords at h
  have hfil := List.mem_filter.mp h
  obtain ⟨run, hrun, hrweq⟩ := List.mem_map.mp hfil.1
  have hp := (List.mem_filter.mp hrun).2
  simp only [Bool.and_eq_true, decide_eq_true_eq] at hp
  have hlen : w.length = run.length := by rw [← hrweq]; rfl
  have hchars : w.toList = run := by rw [← hrweq]; rfl
  refine ⟨by rw [hlen]; exact hp.1, ?_, ?_⟩
  · intro c hc
    rw [hchars] at hc
    have := List.all_eq_true.mp hp.2 c hc
    unfold isLatinLower at this
    simpa using this
  · have := hfil.2
    simp only [Bool.not_eq_true'] at this
    simpa using this

/-- Extract the rational value of a finite PyFloat (0 on non-finite values;
used only under an all-finite hypothesis). -/
def pfFinValue : PyFloat → ℚ
  | .fin q => q
  | _ => 0

theorem pfSum_map_fin (qs : List ℚ) : pfSum (qs.map .fin) = .fin qs.sum := by
  induction qs with
  | nil => rfl
  | cons q qs ih =>
    unfold pfSum at ih ⊢
    rw [List.map_cons, List.foldr_cons, ih, List.sum_cons]
    rfl

end Helpers3

/- ===================== 12. The claims ===================== -/

/-- C7: for PV > CP the calculator charges each marketplace its commission
as a fixed percentage of PV (25% Mercado Livre, 18% Shopee), total cost =
CP + 7% of PV + commission + 1.85, gross profit = PV - total cost and
margin % = profit / PV * 100; for PV ≤ CP every reported field is 0. -/
theorem c7_margin_calculator (pv cp : ℚ) :
    (cp < pv →
      calculate_profit pv cp =
        ⟨⟨cp + 7/100 * pv + 25/100 * pv + 185/100, 25/100 * pv,
          pv - (cp + 7/100 * pv + 25/100 * pv + 185/100),
          (pv - (cp + 7/100 * pv + 25/100 * pv + 185/100)) / pv * 100⟩,
         ⟨cp + 7/100 * pv + 18/100 * pv + 185/100, 18/100 * pv,
          pv - (cp + 7/100 * pv + 18/100 * pv + 185/100),
          (pv - (cp + 7/100 * pv + 18/100 * pv + 185/100)) / pv * 100⟩⟩) ∧
    (pv ≤ cp → calculate_profit pv cp = ⟨⟨0, 0, 0, 0⟩, ⟨0, 0, 0, 0⟩⟩) := by
  constructor
  · intro h
    unfold calculate_profit
    rw [if_neg (not_le.mpr h)]
    simp only [ProfitResults.mk.injEq, MarketResult.mk.injEq]
    refine ⟨⟨by ring, by ring, by ring, by ring⟩, by ring, by ring, by ring, by ring⟩
  · intro h
    unfold calculate_profit
    rw [if_pos h]

theorem c7_margin_calculator_witness :
    calculate_profit 100 50 =
      ⟨⟨8385/100, 25, 1615/100, 1615/100⟩, ⟨7685/100, 18, 2315/100, 2315/100⟩⟩ := by
  rw [(c7_margin_calculator 100 50).1 (by norm_num)]
  simp only [ProfitResults.mk.injEq, MarketResult.mk.injEq]
  norm_num

/-- C10: with PV > CP (and a positive sale price, as the UI guarantees),
the Shopee gross profit exceeds the Mercado Livre gross profit by exactly
0.07 PV, the margins differ by exactly 7 percentage points, and the total
costs differ exactly by the commission difference (no other component). -/
theorem c10_marketplace_commission_gap (pv cp : ℚ) (hcp : cp < pv) (hpv : 0 < pv) :
    (calculate_profit pv cp).shopee.lucroBruto
        - (calculate_profit pv cp).mercadoLivre.lucroBruto = 7/100 * pv ∧
    (calculate_profit pv cp).shopee.margemPct
        - (calculate_profit pv cp).mercadoLivre.margemPct = 7 ∧
    (calculate_profit pv cp).mercadoLivre.custoTotal
        - (calculate_profit pv cp).shopee.custoTotal
      = (calculate_profit pv cp).mercadoLivre.comissao
        - (calculate_profit pv cp).shopee.comissao := by
  unfold calculate_profit
  rw [if_neg (not_le.mpr hcp)]
  simp only
  refine ⟨by ring, ?_, by ring⟩
  field_simp
  ring

theorem c10_marketplace_commission_gap_witness :
    (calculate_profit 100 50).shopee.lucroBruto
        - (calculate_profit 100 50).mercadoLivre.lucroBruto = 7 ∧
    (calculate_profit 100 50).shopee.margemPct
        - (calculate_profit 100 50).mercadoLivre.margemPct = 7 := by
  have h := c10_marketplace_commission_gap 100 50 (by norm_num) (by norm_num)
  exact ⟨by rw [h.1]; norm_num, h.2.1⟩

/-- C4: sorting in the price-ascending mode splits the output into the
non-missing-price records followed by the missing-price records, for every
input list: every absent-price record comes after every present-price
record. -/
theorem c4_absent_prices_sort_last (l : List ProcRow) :
    ∃ present absent,
      sortMenorPreco l = present ++ absent ∧
      (∀ r ∈ present, pfIsNan r.precoLimpo = false) ∧
      (∀ r ∈ absent, pfIsNan r.precoLimpo = true) := by
  refine ⟨insertionSort (fun a b => pfLe a.precoLimpo b.precoLimpo)
      (l.filter (fun r => !(pfIsNan r.precoLimpo))),
    l.filter (fun r => pfIsNan r.precoLimpo), rfl, ?_, ?_⟩
  · intro r hr
    have := (List.mem_filter.mp (mem_insertionSort.mp hr)).2
    simpa using this
  · intro r hr
    exact (List.mem_filter.mp hr).2

theorem c4_absent_prices_sort_last_witness :
    sortMenorPreco
        [⟨"x", "N/A", .nan, 0, "N/A"⟩, ⟨"y", "5", .fin 5, 0, "N/A"⟩,
         ⟨"z", "3", .fin 3, 0, "N/A"⟩]
      = [⟨"z", "3", .fin 3, 0, "N/A"⟩, ⟨"y", "5", .fin 5, 0, "N/A"⟩,
         ⟨"x", "N/A", .nan, 0, "N/A"⟩] ∧
    (∃ present absent,
      sortMenorPreco
          [⟨"x", "N/A", .nan, 0, "N/A"⟩, ⟨"y", "5", .fin 5, 0, "N/A"⟩,
           ⟨"z", "3", .fin 3, 0, "N/A"⟩]
        = present ++ absent ∧
      (∀ r ∈ present, pfIsNan r.precoLimpo = false) ∧
      (∀ r ∈ absent, pfIsNan r.precoLimpo = true)) :=
  ⟨by decide, c4_absent_prices_sort_last _⟩

/-- C9: the post-fetch pipeline produces the distinguishable non-error
"nothing found" outcome exactly when the fetched record set is empty; that
outcome is distinct from the error outcome and carries no table, keyword,
cost or export artefacts (those stages are skipped). -/
theorem c9_empty_result_outcome (sortOpt : SortOption) (numPages : ℕ) (raw : List RawRow) :
    (mainAfterFetch sortOpt numPages raw = .noResults ↔ raw = []) ∧
    MainOutcome.noResults ≠ .preprocessError ∧
    (∀ t k ts cost csv, MainOutcome.noResults ≠ .report t k ts cost csv) := by
  refine ⟨⟨?_, ?_⟩, by simp, by intro t k ts cost csv; simp⟩
  · intro h
    unfold mainAfterFetch at h
    by_cases he : raw.isEmpty = true
    · exact List.isEmpty_iff.mp he
    · rw [if_neg (by simpa using he)] at h
      rcases hp : processAll raw with e | rows <;> rw [hp] at h
      · simp at h
      · simp at h
  · intro h
    rw [h]
    rfl

/-- C1 counterexample: the claim says floor(prefix * 1000), but Python
int() truncates toward zero, so "-1,2345mil" (prefix -1.2345) normalizes
to -1234 while floor(-1234.5) = -1235. -/
theorem c1_counterexample :
    clean_sold_data (some "-1,2345mil") = .ok (-1234) ∧
    pyFloat (commaToDot "-1,2345".toList) = some (.fin (-(12345/10000 : ℚ))) ∧
    ⌊(-(12345/10000 : ℚ)) * 1000⌋ = -1235 ∧ (-1234 : ℤ) ≠ -1235 := by
  refine ⟨?_, ?_, ?_, by decide⟩
  · have h : clean_sold_data (some "-1,2345mil")
        = .ok (pyTruncQ (FloatParts.val ⟨true, 12345, 4, 0⟩ * 1000)) := rfl
    rw [h]
    have hv : FloatParts.val ⟨true, 12345, 4, 0⟩ * 1000 = -(2469/2 : ℚ) := by
      norm_num [FloatParts.val, expFactor]
    rw [hv, pyTruncQ, if_neg (by norm_num), Int.ceil_neg]
    norm_num
  · have h : pyFloat (commaToDot "-1,2345".toList)
        = some (FloatParts.toPyFloat ⟨true, 12345, 4, 0⟩) := rfl
    rw [h]
    unfold FloatParts.toPyFloat
    rw [if_neg (by decide)]
    norm_num [FloatParts.val, expFactor]
  · rw [show (-(12345/10000 : ℚ)) * 1000 = -(2469/2 : ℚ) by norm_num, Int.floor_neg]
    norm_num [Int.ceil_eq_iff]

/-- C1 (amended): for every sold-count string whose processed form (after
case folding, removing "+" and stripping) is a prefix followed by the
magnitude suffix "mil", with the prefix itself free of "mil" and reading,
with "," as the decimal separator, as the finite value q, normalization
returns the truncation toward zero of q * 1000 (which is floor(q * 1000)
for the non-negative prefixes of real sold counts, e.g. "1,5mil" → 1500,
"10 mil" → 10000, "1,2 mil" → 1200). -/
theorem c1_mil_normalization_truncates (s : String) (p : List Char) (q : ℚ)
    (hsplit : soldProcessed s = p ++ ['m', 'i', 'l'])
    (hnomil : containsMil p = false)
    (hparse : pyFloat (commaToDot p) = some (.fin q)) :
    clean_sold_data (some s) = .ok (pyTruncQ (q * 1000)) := by
  have hna : ¬ pyUpperS s = "N/A" := by
    intro hna
    have h2 := soldProcessed_of_NA hna
    rw [hsplit] at h2
    have hlen := congrArg List.length h2
    simp only [List.length_append, List.length_cons, List.length_nil] at hlen
    have hp : p = [] := List.length_eq_zero.mp (by omega)
    rw [hp] at h2
    exact absurd h2 (by decide)
  have hblank : ¬ (pyStrip s.toList).isEmpty = true := by
    intro hb
    have h2 := soldProcessed_of_blank hb
    rw [hsplit] at h2
    have hlen := congrArg List.length h2
    simp only [List.length_append, List.length_cons, List.length_nil] at hlen
    omega
  simp only [clean_sold_data]
  split
  · rename_i hcond
    simp only [Bool.or_eq_true, decide_eq_true_eq] at hcond
    rcases hcond with hcond | hcond
    · exact absurd hcond hna
    · exact absurd hcond hblank
  · split
    · rw [hsplit, replaceMil_append_mil p hnomil, hparse]
    · rename_i hmil
      rw [hsplit] at hmil
      exact absurd (containsMil_append_mil p []) hmil

theorem c1_mil_normalization_truncates_witness :
    clean_sold_data (some "1,5mil") = .ok 1500 ∧
    clean_sold_data (some "10 mil") = .ok 10000 ∧
    clean_sold_data (some "1,2 mil") = .ok 1200 := by
  refine ⟨?_, ?_, ?_⟩
  · have hq : pyFloat (commaToDot "1,5".toList) = some (.fin (3/2 : ℚ)) := by
      have h : pyFloat (commaToDot "1,5".toList)
          = some (FloatParts.toPyFloat ⟨false, 15, 1, 0⟩) := rfl
      rw [h]
      unfold FloatParts.toPyFloat
      rw [if_neg (by decide)]
      norm_num [FloatParts.val, expFactor]
    rw [c1_mil_normalization_truncates "1,5mil" "1,5".toList (3/2) (by decide) (by decide) hq]
    rw [pyTruncQ, if_pos (by norm_num)]
    norm_num
  · have hq : pyFloat (commaToDot "10 ".toList) = some (.fin (10 : ℚ)) := by
      have h : pyFloat (commaToDot "10 ".toList)
          = some (FloatParts.toPyFloat ⟨false, 10, 0, 0⟩) := rfl
      rw [h]
      unfold FloatParts.toPyFloat
      rw [if_neg (by decide)]
      norm_num [FloatParts.val, expFactor]
    rw [c1_mil_normalization_truncates "10 mil" "10 ".toList 10 (by decide) (by decide) hq]
    rw [pyTruncQ, if_pos (by norm_num)]
    norm_num
  · have hq : pyFloat (commaToDot "1,2 ".toList) = some (.fin (6/5 : ℚ)) := by
      have h : pyFloat (commaToDot "1,2 ".toList)
          = some (FloatParts.toPyFloat ⟨false, 12, 1, 0⟩) := rfl
      rw [h]
      unfold FloatParts.toPyFloat
      rw [if_neg (by decide)]
      norm_num [FloatParts.val, expFactor]
    rw [c1_mil_normalization_truncates "1,2 mil" "1,2 ".toList (6/5) (by decide) (by decide) hq]
    rw [pyTruncQ, if_pos (by norm_num)]
    norm_num

section CleanSoldBranches

theorem clean_sold_of_NA {s : String} (h : pyUpperS s = "N/A") :
    clean_sold_data (some s) = .ok 0 := by
  simp only [clean_sold_data]
  split
  · rfl
  · rename_i hcond
    simp [h] at hcond

theorem clean_sold_of_blank {s : String} (h : (pyStrip s.toList).isEmpty = true) :
    clean_sold_data (some s) = .ok 0 := by
  simp only [clean_sold_data]
  split
  · rfl
  · rename_i hcond
    have h2 : pyStrip s.data = [] := List.isEmpty_iff.mp h
    simp [h2] at hcond

theorem minus_not_mem_soldProcessed {s : String} (hm : '-' ∉ s.toList) :
    '-' ∉ soldProcessed s := fun h =>
  hm (minus_mem_of_mem_pyLower (mem_of_mem_removePlus (mem_of_mem_pyStrip h)))

theorem minus_not_mem_milArg {s : String} (hm : '-' ∉ s.toList) :
    '-' ∉ commaToDot (replaceMil [] (soldProcessed s)) := by
  intro h
  rcases mem_replaceMil [] _ (minus_mem_of_mem_commaToDot h) with h2 | h2
  · simp at h2
  · exact minus_not_mem_soldProcessed hm h2

end CleanSoldBranches

/-- C2 counterexample: the claim says the normalizer always returns a
non-negative integer and never raises, but "-5" normalizes to the negative
value -5, and "infmil" (whose "mil"-prefix reads as float infinity) raises
an uncaught OverflowError from int(). -/
theorem c2_counterexample :
    clean_sold_data (some "-5") = .ok (-5) ∧ ((-5 : ℤ) < 0) ∧
    clean_sold_data (some "infmil") = .error .overflowError := by
  exact ⟨by decide, by decide, by decide⟩

/-- C2 (amended): a missing, empty or "N/A" sold-count input normalizes to
0, and so does every malformed input — whose "mil"-free form fails integer
parsing, or whose "mil"-branch prefix fails float parsing or reads as NaN —
except that a prefix reading as an infinite float raises OverflowError, the
only possible exception; every successfully returned value is an integer,
non-negative whenever the input contains no "-" character. -/
theorem c2_sold_count_robustness :
    (clean_sold_data none = .ok 0) ∧
    (∀ s : String, (pyStrip s.toList).isEmpty = true → clean_sold_data (some s) = .ok 0) ∧
    (∀ s : String, pyUpperS s = "N/A" → clean_sold_data (some s) = .ok 0) ∧
    (∀ s : String, containsMil (soldProcessed s) = false →
      pyIntOfChars (soldProcessed s) = none → clean_sold_data (some s) = .ok 0) ∧
    (∀ s : String, containsMil (soldProcessed s) = true →
      (pyFloat (commaToDot (replaceMil [] (soldProcessed s))) = none ∨
       pyFloat (commaToDot (replaceMil [] (soldProcessed s))) = some .nan) →
      clean_sold_data (some s) = .ok 0) ∧
    (∀ (s : String) (v : ℤ), clean_sold_data (some s) = .ok v → '-' ∉ s.toList → 0 ≤ v) ∧
    (∀ (s : String) (e : PyErr), clean_sold_data (some s) = .error e →
      e = .overflowError ∧
      (pyFloat (commaToDot (replaceMil [] (soldProcessed s))) = some .inf ∨
       pyFloat (commaToDot (replaceMil [] (soldProcessed s))) = some .ninf)) := by
  refine ⟨rfl, fun s h => clean_sold_of_blank h, fun s h => clean_sold_of_NA h, ?_, ?_, ?_, ?_⟩
  · intro s h1 h2
    simp only [clean_sold_data]
    split
    · rfl
    · rw [if_neg (by simp [h1]), h2]
  · intro s h1 h2
    simp only [clean_sold_data]
    split
    · rfl
    · rcases h2 with h2 | h2 <;> rw [h2]
  · intro s v h hm
    simp only [clean_sold_data] at h
    split at h
    · simp only [Except.ok.injEq] at h
      omega
    · split at h
      · rcases hp : pyFloat (commaToDot (replaceMil [] (soldProcessed s))) with _ | pf <;>
          rw [hp] at h
        · simp only [Except.ok.injEq] at h; omega
        · match pf with
          | .fin q =>
            simp only [Except.ok.injEq] at h
            have hq : (0 : ℚ) ≤ q := pyFloatOfChars_fin_nonneg (minus_not_mem_milArg hm) hp
            rw [← h]
            rw [pyTruncQ, if_pos (by positivity)]
            exact Int.le_floor.mpr (by positivity)
          | .inf => simp at h
          | .ninf => simp at h
          | .nan => simp only [Except.ok.injEq] at h; omega
      · rcases hp : pyIntOfChars (soldProcessed s) with _ | n <;> rw [hp] at h
        · simp only [Except.ok.injEq] at h; omega
        · simp only [Except.ok.injEq] at h
          have := pyIntOfChars_nonneg (minus_not_mem_soldProcessed hm) hp
          omega
  · intro s e h
    simp only [clean_sold_data] at h
    split at h
    · simp at h
    · split at h
      · rcases hp : pyFloat (commaToDot (replaceMil [] (soldProcessed s))) with _ | pf <;>
          rw [hp] at h
        · simp at h
        · rcases pf with q | _ | _ | _
          · simp at h
          · exact ⟨by cases e; rfl, Or.inl rfl⟩
          · exact ⟨by cases e; rfl, Or.inr rfl⟩
          · simp at h
      · rcases hp : pyIntOfChars (soldProcessed s) with _ | n <;> rw [hp] at h <;> simp at h

theorem c2_sold_count_robustness_witness :
    clean_sold_data (some "N/A") = .ok 0 ∧
    clean_sold_data (some "+") = .ok 0 ∧
    clean_sold_data (some "abc") = .ok 0 ∧
    (0 : ℤ) ≤ 100 := by
  refine ⟨c2_sold_count_robustness.2.2.1 "N/A" (by decide),
    c2_sold_count_robustness.2.2.2.1 "+" (by decide) (by decide),
    c2_sold_count_robustness.2.2.2.1 "abc" (by decide) (by decide),
    c2_sold_count_robustness.2.2.2.2.2.1 "100" 100 (by decide) (by decide)⟩

/-- Is a normalized price negative (a negative decimal or -inf)? -/
def pfIsNeg : PyFloat → Bool
  | .fin q => decide (q < 0)
  | .ninf => true
  | _ => false

/-- C3 counterexample: the claim says price normalization yields a
non-negative decimal or absent, but the raw string "-5" normalizes to the
present negative value -5. -/
theorem c3_counterexample : precoLimpo "-5" = .fin (-5) ∧ ((-5 : ℚ) < 0) := by
  constructor
  · have h : precoLimpo "-5" = FloatParts.toPyFloat ⟨true, 5, 0, 0⟩ := rfl
    rw [h]
    unfold FloatParts.toPyFloat
    rw [if_neg (by decide)]
    norm_num [FloatParts.val, expFactor]
  · norm_num

/-- C3 (amended): price normalization is total — a string the pandas
numeric parser cannot read becomes the absent marker NaN, never the valid
value zero (NaN is distinct from 0) — and the resulting value is never
negative when the raw string contains no "-" character. -/
theorem c3_price_normalization_invariant (s : String) :
    (pandasNumeric (pyStrip (commaToDot (removeDots s.toList))) = none → precoLimpo s = .nan) ∧
    ((PyFloat.nan : PyFloat) ≠ .fin 0) ∧
    ('-' ∉ s.toList → pfIsNeg (precoLimpo s) = false) := by
  refine ⟨?_, by decide, ?_⟩
  · intro h
    unfold precoLimpo
    rw [h]
  · intro hm
    have hchain : '-' ∉ pyStrip (commaToDot (removeDots s.toList)) := fun h =>
      hm (mem_of_mem_removeDots (minus_mem_of_mem_commaToDot (mem_of_mem_pyStrip h)))
    unfold precoLimpo
    rcases hp : pandasNumeric (pyStrip (commaToDot (removeDots s.toList))) with _ | pf
    · rfl
    · rcases pf with q | _ | _ | _
      · have hq : (0 : ℚ) ≤ q := pyFloatOfChars_fin_nonneg hchain hp
        simp [pfIsNeg, not_lt.mpr hq]
      · rfl
      · exact absurd hp (pyFloatOfChars_ne_ninf hchain)
      · rfl

theorem c3_price_normalization_invariant_witness :
    precoLimpo "abc" = .nan ∧ pfIsNeg (precoLimpo "1.234,56") = false := by
  exact ⟨(c3_price_normalization_invariant "abc").1 (by decide),
    (c3_price_normalization_invariant "1.234,56").2.2 (by decide)⟩

/-- C5: the keyword analysis selects as its subset exactly the first
max(10, floor(0.20 * n)) records of the sold-count-descending ranking, and
returns at most 10 (word, count) pairs, every word being a lowercase
alphabetic token of length at least 3 that is not a stop word. -/
theorem c5_keyword_analysis (df : List ProcRow) :
    (analyze_keywords_8020 df).2 = (sortVendDesc df).take (max 10 (df.length / 5)) ∧
    (analyze_keywords_8020 df).1.length ≤ 10 ∧
    (∀ (w : String) (c : ℕ), (w, c) ∈ (analyze_keywords_8020 df).1 →
      3 ≤ w.length ∧ (∀ ch ∈ w.toList, 'a' ≤ ch ∧ ch ≤ 'z') ∧ ¬ w ∈ stopwords) := by
  refine ⟨rfl, ?_, ?_⟩
  · show (mostCommon 10 _).length ≤ 10
    unfold mostCommon
    rw [List.length_take]
    exact min_le_left _ _
  · intro w c hmem
    have hw := mostCommon_fst_mem hmem
    obtain ⟨ws, hws, hwin⟩ := List.mem_flatten.mp hw
    obtain ⟨r, hr, hreq⟩ := List.mem_map.mp hws
    rw [← hreq] at hwin
    exact titleWords_spec hwin

theorem c5_keyword_analysis_witness :
    (analyze_keywords_8020 [⟨"ralo inteligente click inox", "10", .fin 10, 5, "5"⟩]).1
      = [("ralo", 1), ("inteligente", 1), ("click", 1), ("inox", 1)] ∧
    (3 ≤ ("ralo" : String).length ∧
      (∀ ch ∈ ("ralo" : String).toList, 'a' ≤ ch ∧ ch ≤ 'z') ∧
      ¬ ("ralo" : String) ∈ stopwords) :=
  ⟨by decide,
   (c5_keyword_analysis [⟨"ralo inteligente click inox", "10", .fin 10, 5, "5"⟩]).2.2
     "ralo" 1 (by decide)⟩

/-- The mean of the present (non-NaN) normalized prices of a record list. -/
def specMeanPrice (rows : List ProcRow) : ℚ :=
  ((rows.filter (fun r => !(pfIsNan r.precoLimpo))).map (fun r => pfFinValue r.precoLimpo)).sum /
    (rows.filter (fun r => !(pfIsNan r.precoLimpo))).length

/-- C6: with the markups used by the app (0.80 and 1.00), whenever at least
one record of the top subset has a present (and finite) normalized price,
the cost analysis returns the arithmetic mean of the present prices
together with mean/(1+0.80) and mean/(1+1.00); when no record has a present
price it returns the unavailable marker None. -/
theorem c6_cost_targets (rows : List ProcRow) :
    ((∀ r ∈ rows, pfIsNan r.precoLimpo = false → ∃ q, r.precoLimpo = .fin q) →
     (∃ r ∈ rows, pfIsNan r.precoLimpo = false) →
      analyze_cost_price rows (80/100) (100/100) =
        some (.fin (specMeanPrice rows), .fin (specMeanPrice rows / (1 + 80/100)),
              .fin (specMeanPrice rows / (1 + 100/100)))) ∧
    ((∀ r ∈ rows, pfIsNan r.precoLimpo = true) →
      analyze_cost_price rows (80/100) (100/100) = none) := by
  constructor
  · intro hfin hex
    obtain ⟨r0, hr0, hr0p⟩ := hex
    have hne : (rows.filter (fun r => !(pfIsNan r.precoLimpo))).isEmpty = false := by
      rw [List.isEmpty_eq_false]
      exact List.ne_nil_of_mem (List.mem_filter.mpr ⟨hr0, by simp [hr0p]⟩)
    have hmap : (rows.filter (fun r => !(pfIsNan r.precoLimpo))).map (fun r => r.precoLimpo)
        = ((rows.filter (fun r => !(pfIsNan r.precoLimpo))).map
            (fun r => pfFinValue r.precoLimpo)).map .fin := by
      rw [List.map_map]
      apply List.map_congr_left
      intro r hr
      have hrrows := List.mem_filter.mp hr
      obtain ⟨q, hq⟩ := hfin r hrrows.1 (by simpa using hrrows.2)
      simp only [Function.comp_apply]
      rw [hq]
      rfl
    unfold analyze_cost_price
    simp only [hne, Bool.false_eq_true, if_false, hmap, pfSum_map_fin]
    rfl
  · intro hall
    have hnil : rows.filter (fun r => !(pfIsNan r.precoLimpo)) = [] := by
      rw [List.filter_eq_nil_iff]
      intro r hr
      simp [hall r hr]
    unfold analyze_cost_price
    simp only [hnil]
    rfl

theorem c6_cost_targets_witness :
    analyze_cost_price
        [⟨"a", "50", .fin 50, 0, "N/A"⟩, ⟨"b", "150", .fin 150, 0, "N/A"⟩]
        (80/100) (100/100)
      = some (.fin 100, .fin (500/9), .fin 50) ∧
    round ((500/9 : ℚ) * 100) = 5556 := by
  constructor
  · have h := (c6_cost_targets
        [⟨"a", "50", .fin 50, 0, "N/A"⟩, ⟨"b", "150", .fin 150, 0, "N/A"⟩]).1
      (by
        intro r hr _
        rcases List.mem_cons.mp hr with h | h
        · exact ⟨50, by rw [h]⟩
        · rcases List.mem_cons.mp h with h | h
          · exact ⟨150, by rw [h]⟩
          · simp at h)
      ⟨⟨"a", "50", .fin 50, 0, "N/A"⟩, by simp, by decide⟩
    rw [h]
    have hmean : specMeanPrice
        [⟨"a", "50", .fin 50, 0, "N/A"⟩, ⟨"b", "150", .fin 150, 0, "N/A"⟩] = 100 := by
      norm_num [specMeanPrice, List.filter, pfIsNan, pfFinValue]
    rw [hmean]
    norm_num
  · rw [round_eq]
    norm_num

/-- C8 counterexample: the claim says a nonzero-normalized input is
rendered as its normalized integer with "." thousands separators and that
non-numeric text passes through unchanged; but "1,5mil" (normalized 1500)
renders as the transformed string "1,5000", not "1.500", and the purely
non-numeric "abc" renders as "N/A", not "abc". -/
theorem c8_counterexample :
    format_sold_data_for_display (some "1,5mil") = .ok "1,5000" ∧
    clean_sold_data (some "1,5mil") = .ok 1500 ∧
    intThousands 1500 = "1.500" ∧ ("1,5000" : String) ≠ "1.500" ∧
    format_sold_data_for_display (some "abc") = .ok "N/A" := by
  have hc : clean_sold_data (some (String.mk (pyStrip "1,5mil".toList))) = .ok 1500 := by
    have h : clean_sold_data (some (String.mk (pyStrip "1,5mil".toList)))
        = .ok (pyTruncQ (FloatParts.val ⟨false, 15, 1, 0⟩ * 1000)) := rfl
    rw [h, pyTruncQ, if_pos (by norm_num [FloatParts.val, expFactor])]
    norm_num [FloatParts.val, expFactor]
  refine ⟨?_, hc, by decide, by decide, ?_⟩
  · simp only [format_sold_data_for_display]
    rw [if_neg (by decide), if_neg (by decide)]
    simp only [hc]
    decide
  · simp only [format_sold_data_for_display]
    rw [if_neg (by decide), if_neg (by decide)]
    rw [show clean_sold_data (some (String.mk (pyStrip "abc".toList))) = .ok 0 from by decide]
    decide

/-- C8 (amended): a missing, blank, "N/A" or zero-normalizing sold-count
input renders as the sentinel "N/A" (in particular purely non-numeric text
renders "N/A", since it normalizes to 0); for an input whose normalized
value is nonzero, the "+"-removed, "mil"→"000", stripped transform is
rendered with "." thousands separators when it parses as an integer and is
otherwise returned unchanged. -/
theorem c8_display_formatter :
    (format_sold_data_for_display none = .ok "N/A") ∧
    (∀ s : String, clean_sold_data (some (String.mk (pyStrip s.toList))) = .ok 0 →
      format_sold_data_for_display (some s) = .ok "N/A") ∧
    (∀ (s : String) (v : ℤ) (n : ℤ),
      clean_sold_data (some (String.mk (pyStrip s.toList))) = .ok v → v ≠ 0 →
      pyIntOfChars (pyStrip (replaceMil ['0','0','0'] (removePlus (pyStrip s.toList)))) = some n →
      format_sold_data_for_display (some s) = .ok (intThousands n)) ∧
    (∀ (s : String) (v : ℤ),
      clean_sold_data (some (String.mk (pyStrip s.toList))) = .ok v → v ≠ 0 →
      pyIntOfChars (pyStrip (replaceMil ['0','0','0'] (removePlus (pyStrip s.toList)))) = none →
      format_sold_data_for_display (some s) =
        .ok (String.mk (pyStrip (replaceMil ['0','0','0'] (removePlus (pyStrip s.toList)))))) := by
  refine ⟨rfl, ?_, ?_, ?_⟩
  · intro s h
    simp only [format_sold_data_for_display]
    split
    · rfl
    · split
      · rfl
      · have h2 : clean_sold_data (some (String.mk (pyStrip s.data))) = Except.ok 0 := h
        simp [h2]
  · intro s v n h hv hn
    simp only [format_sold_data_for_display]
    split
    · rename_i hb
      rw [clean_sold_of_blank (by
        have h0 : pyStrip s.toList = [] := List.isEmpty_iff.mp hb
        show (pyStrip (String.mk (pyStrip s.toList)).toList).isEmpty = true
        rw [show (String.mk (pyStrip s.toList)).toList = pyStrip s.toList from rfl, h0]
        rfl)] at h
      simp only [Except.ok.injEq] at h
      exact absurd h.symm hv
    · split
      · rename_i hna
        rw [clean_sold_of_NA hna] at h
        simp only [Except.ok.injEq] at h
        exact absurd h.symm hv
      · simp only [h, if_neg hv, hn]
  · intro s v h hv hn
    simp only [format_sold_data_for_display]
    split
    · rename_i hb
      rw [clean_sold_of_blank (by
        have h0 : pyStrip s.toList = [] := List.isEmpty_iff.mp hb
        show (pyStrip (String.mk (pyStrip s.toList)).toList).isEmpty = true
        rw [show (String.mk (pyStrip s.toList)).toList = pyStrip s.toList from rfl, h0]
        rfl)] at h
      simp only [Except.ok.injEq] at h
      exact absurd h.symm hv
    · split
      · rename_i hna
        rw [clean_sold_of_NA hna] at h
        simp only [Except.ok.injEq] at h
        exact absurd h.symm hv
      · simp only [h, if_neg hv, hn]

theorem c8_display_formatter_witness :
    format_sold_data_for_display (some "10mil") = .ok "10.000" ∧
    format_sold_data_for_display (some "xyz") = .ok "N/A" ∧
    intThousands 10000 = "10.000" := by
  have hc : clean_sold_data (some (String.mk (pyStrip "10mil".toList))) = .ok 10000 := by
    have h : clean_sold_data (some (String.mk (pyStrip "10mil".toList)))
        = .ok (pyTruncQ (FloatParts.val ⟨false, 10, 0, 0⟩ * 1000)) := rfl
    rw [h, pyTruncQ, if_pos (by norm_num [FloatParts.val, expFactor])]
    norm_num [FloatParts.val, expFactor]
  refine ⟨?_, ?_, by decide⟩
  · have h := c8_display_formatter.2.2.1 "10mil" 10000 10000 hc (by decide) (by decide)
    rw [h]
    decide
  · exact c8_display_formatter.2.1 "xyz" (by decide)
